import Mathlib

/-!
Verification development for the Custom-Shell repository (`src/shell.cpp`).

The program is a small command interpreter: `processCmds` reads lines from an
input stream, tokenizes each line with `std::quoted` extraction (`split`),
ignores blank/comment lines (`checkIgnore`), handles the directives `exit`,
`SERIAL <path>` and `PARALLEL <path>` (`processFirstWord`), and otherwise
dispatches the line as a command, either serially (spawn, wait, report) or in
parallel (spawn, remember the pid, report all pids at end of loop).

We embed the program as a trace-producing interpreter.  Observable behaviour is
a list of events `Ev`: process spawns, blocking waits (reaps), and text writes
(`Ev.out`) tagged with the output stream they were written to (`Sink`) and with
the nesting depth of the session that produced them.  Exit statuses of child
processes are abstracted by a function `status : Nat → Int` from pid to the
integer eventually obtained by waiting on that pid, so that theorems quantify
over all possible child behaviours.  Recursion into nested script files
(`SERIAL f` / `PARALLEL f`) is bounded by an explicit `fuel` counter; the file
system is an abstract map `FS` from path to file contents.  An input source is
a list of lines together with a flag recording whether the final line is
newline-terminated (`std::getline` sets `eofbit` while reading an unterminated
final line, which the program tests via `is.eof()`).
-/

namespace Shell

/-- Whitespace characters of `operator>>` with the default C locale, used by
`std::istringstream` extraction in `split` (shell.cpp line 52). -/
def isWs (c : Char) : Bool :=
  c == ' ' || c == '\t' || c == '\n' || c == Char.ofNat 11 || c == Char.ofNat 12 || c == '\r'

/-- Scanner state of the `std::quoted` extraction loop in `split`
(shell.cpp lines 47-56): between tokens, inside a bare token, inside a
quoted token, or just after the escape character inside a quoted token. -/
inductive SMode where
  | between
  | bare
  | quot
  | esc
deriving DecidableEq

/-- One-character-at-a-time model of `while (is >> std::quoted(word))`
(shell.cpp lines 52-54).  Between tokens, whitespace is skipped; a `"` starts
a quoted token (delimiters stripped), anything else starts a bare token read
up to the next whitespace; inside quotes, `\` escapes the next character.
End-of-input inside a bare token ends the extraction successfully (the word
is pushed), but end-of-input inside a quoted token (also right after the
escape character) makes the `std::quoted` extraction fail — failbit is set
by the character read hitting end-of-input — so the `while` condition is
false and the partially accumulated word is never pushed. -/
def splitAux : SMode → List Char → List Char → List String
  | .between, _, [] => []
  | .bare, acc, [] => [String.mk acc]
  | .quot, _, [] => []
  | .esc, _, [] => []
  | .between, _, c :: cs =>
      if isWs c then splitAux .between [] cs
      else if c == '"' then splitAux .quot [] cs
      else splitAux .bare [c] cs
  | .bare, acc, c :: cs =>
      if isWs c then String.mk acc :: splitAux .between [] cs
      else splitAux .bare (acc ++ [c]) cs
  | .quot, acc, c :: cs =>
      if c == '"' then String.mk acc :: splitAux .between [] cs
      else if c == '\\' then splitAux .esc acc cs
      else splitAux .quot (acc ++ [c]) cs
  | .esc, acc, c :: cs => splitAux .quot (acc ++ [c]) cs

/-- `split` from shell.cpp lines 47-56: tokenize one line into words using
`std::istringstream` and `std::quoted` extraction. -/
def split (line : String) : List String :=
  splitAux .between [] line.data

/-- `checkIgnore` from shell.cpp lines 36-39: a line is ignored if the token
vector is empty or the first character of the first token is `#`.  (For an
empty first token, `std::string::operator[]` at index 0 yields the null
character, so the line is not ignored.) -/
def checkIgnore (line : List String) : Bool :=
  line.isEmpty || ((line.headD "").data.headD (Char.ofNat 0)) == '#'

/-- The text produced by the command-printing loop shared by
`runSerialCommand` and `runParallelCommand` (shell.cpp lines 64-70 and 89-95):
each word is printed, followed by a space unless the word compares equal to
`command.back()`. -/
def renderCmd (cmd : List String) : String :=
  String.join (cmd.map fun w => w ++ if cmd.getLast? = some w then "" else " ")

/-- An output stream: the process's standard output (`std::cout`) or some
other `std::ostream` identified by a number. -/
inductive Sink where
  | stdout
  | handle (n : Nat)
deriving DecidableEq

/-- What a single write to an output stream says: the prompt, the
`Running: ...` line, or an `Exit code: ...` line.  `drain` is true for the
exit-code lines printed by `waitForParalellCommands` (shell.cpp line 110) and
false for the one printed by `runSerialCommand` (shell.cpp line 78). -/
inductive OutKind where
  | prompt (text : String)
  | running (text : String)
  | exitCode (code : Int) (drain : Bool)
deriving DecidableEq

/-- Modelled from the spec: `ChildProcess.h` (the `ChildProcess` class with
`forkNexec` and `wait`) is not in the repository's sources, so the process
primitives are taken from the Process Launcher / Completion Reporter
contracts (spec sections 4.4-4.5): `spawn` launches a child with the given
argument vector and returns immediately; `await` blocks until that child
terminates, yielding its integer exit status (abstracted throughout as
`status pid`).  The third constructor records writing a line of text to a
stream; `depth` is the session-nesting depth of the `processCmds` activation
that produced the write (0 for the top-level session). -/
inductive Ev where
  | spawn (pid : Nat) (cmd : List String)
  | await (pid : Nat)
  | out (sink : Sink) (depth : Nat) (k : OutKind)
deriving DecidableEq

/-- How a session ended in the model: normally (`ok`), by an out-of-bounds
access on the argument vector (`oob`, the undefined behaviour of `line[1]` at
shell.cpp lines 124/129 when the path argument is missing), or because the
model's nesting fuel ran out (`fuelOut`). -/
inductive Flag where
  | ok
  | oob
  | fuelOut
deriving DecidableEq

/-- An input source: the lines readable from it, plus whether the final line
is newline-terminated.  `std::getline` succeeds on an unterminated final line
but leaves `eofbit` set, which `processCmds` tests with `is.eof()`. -/
structure Input where
  lines : List String
  finalNl : Bool
deriving DecidableEq

/-- The file system seen by `std::ifstream`: maps a path to the contents of
the file, or `none` when the file cannot be opened. -/
abbrev FS : Type := String → Option Input

/-- Opening a path with `std::ifstream` (shell.cpp lines 124/129): a file that
cannot be opened behaves as a stream in the fail state, i.e. every `getline`
fails immediately — the same as an empty input. -/
def openFile (fs : FS) (path : String) : Input :=
  (fs path).getD ⟨[], true⟩

/-- The write performed by `os << prompt` (shell.cpp line 145). -/
def promptEv (os : Sink) (d : Nat) (p : String) : Ev :=
  .out os d (.prompt p)

/-- The `Running: ...` write of `runSerialCommand` / `runParallelCommand`
(shell.cpp lines 64-70, 89-95). -/
def runningEv (os : Sink) (d : Nat) (cmd : List String) : Ev :=
  .out os d (.running ("Running: " ++ renderCmd cmd))

/-- `waitForParalellCommands` (shell.cpp lines 106-112) as called at
shell.cpp line 160: for each remembered pid, in insertion order, block on it
with `waitpid` and print its exit status — to `std::cout`, which is the
stream passed at the call site. -/
def drainEvs (status : Nat → Int) (d : Nat) : List Nat → List Ev
  | [] => []
  | pid :: rest =>
      .await pid :: .out Sink.stdout d (.exitCode (status pid) true) :: drainEvs status d rest

/-- The `while` loop of `processCmds` (shell.cpp lines 145-161) plus the final
drain, parameterized by `rn`, the action taken for a nested `SERIAL`/`PARALLEL`
directive (a recursive `processCmds` call; abstracted here so the loop is
structurally recursive on the remaining lines).  Arguments: remaining lines,
whether the final line is newline-terminated, the next free pid, and the
accumulated `parPids` vector.  Returns the event trace, the next free pid, and
how the session ended. -/
def sessLoop (rn : String → Bool → Nat → List Ev × Nat × Flag) (status : Nat → Int)
    (os : Sink) (pm : Bool) (prompt : String) (d : Nat) :
    List String → Bool → Nat → List Nat → List Ev × Nat × Flag
  | [], _, p0, pids =>
      (promptEv os d prompt :: (if pm then drainEvs status d pids else []), p0, .ok)
  | l :: ls, nl, p0, pids =>
      if checkIgnore (split l) then
        let r := sessLoop rn status os pm prompt d ls nl p0 pids
        (promptEv os d prompt :: r.1, r.2)
      else if (split l).headD "" = "exit" then
        (promptEv os d prompt :: (if pm then drainEvs status d pids else []), p0, .ok)
      else if (split l).headD "" = "SERIAL" ∨ (split l).headD "" = "PARALLEL" then
        match (split l)[1]? with
        | none => ([promptEv os d prompt], p0, .oob)
        | some path =>
          let r := rn path ((split l).headD "" == "PARALLEL") p0
          match r.2.2 with
          | .ok => (promptEv os d prompt :: r.1 ++ (if pm then drainEvs status d pids else []),
                    r.2.1, .ok)
          | f => (promptEv os d prompt :: r.1, r.2.1, f)
      else if ls.isEmpty && !nl then
        (promptEv os d prompt :: (if pm then drainEvs status d pids else []), p0, .ok)
      else if pm then
        let r := sessLoop rn status os pm prompt d ls nl (p0 + 1) (pids ++ [p0])
        (promptEv os d prompt :: runningEv os d (split l) :: .spawn p0 (split l) :: r.1, r.2)
      else
        let r := sessLoop rn status os pm prompt d ls nl (p0 + 1) pids
        (promptEv os d prompt :: runningEv os d (split l) :: .spawn p0 (split l) ::
          .await p0 :: .out os d (.exitCode (status p0) false) :: r.1, r.2)

/-- `processCmds` from shell.cpp lines 141-162, with the directive handling of
`processFirstWord` (shell.cpp lines 121-135) inlined as the `rn` callback: a
nested `SERIAL f`/`PARALLEL f` line opens `f` and recursively runs a session
over it with the stated mode, output to `std::cout`, an empty prompt, one
nesting level deeper, a fresh empty `parPids` vector, and one unit less fuel;
after the nested session the enclosing loop breaks (`processFirstWord` returns
false).  `fuel` bounds only the nesting depth of script files. -/
def processCmds (fs : FS) (status : Nat → Int) :
    Nat → Input → Sink → Bool → String → Nat → Nat → List Nat → List Ev × Nat × Flag
  | 0, inp, os, pm, prompt, d, p0, pids =>
      sessLoop (fun _ _ p => ([], p, .fuelOut)) status os pm prompt d
        inp.lines inp.finalNl p0 pids
  | fuel + 1, inp, os, pm, prompt, d, p0, pids =>
      sessLoop (fun path isPar p =>
          processCmds fs status fuel (openFile fs path) Sink.stdout isPar "" (d + 1) p [])
        status os pm prompt d inp.lines inp.finalNl p0 pids

/-- The event trace of a session run. -/
def sessionTrace (fs : FS) (status : Nat → Int) (fuel : Nat) (inp : Input) (os : Sink)
    (pm : Bool) (prompt : String) (d p0 : Nat) (pids : List Nat) : List Ev :=
  (processCmds fs status fuel inp os pm prompt d p0 pids).1

/-- `main` from shell.cpp lines 165-167: one serial session over standard
input, output to `std::cout`, prompt `"> "`. -/
def mainRun (fs : FS) (status : Nat → Int) (fuel : Nat) (stdin : Input) :
    List Ev × Nat × Flag :=
  processCmds fs status fuel stdin Sink.stdout false "> " 0 0 []

/-- A line that is dispatched as a command: not ignored and not one of the
three directives. -/
def PlainCmd (c : String) : Prop :=
  checkIgnore (split c) = false ∧ (split c).headD "" ≠ "exit" ∧
    (split c).headD "" ≠ "SERIAL" ∧ (split c).headD "" ≠ "PARALLEL"

instance : DecidablePred PlainCmd := fun c => by unfold PlainCmd; infer_instance

/-- The events of the spawn phase of a parallel session: per command, the
prompt, the `Running: ...` line and the spawn, with consecutive pids. -/
def parBlocks (os : Sink) (d : Nat) (prompt : String) : Nat → List String → List Ev
  | _, [] => []
  | p0, c :: cs =>
      promptEv os d prompt :: runningEv os d (split c) :: .spawn p0 (split c) ::
        parBlocks os d prompt (p0 + 1) cs

/-- The events of a serial session's command sequence: per command, the
prompt, the `Running: ...` line, the spawn, the blocking wait, and the
exit-code report, with consecutive pids. -/
def serialBlocks (status : Nat → Int) (os : Sink) (d : Nat) (prompt : String) :
    Nat → List String → List Ev
  | _, [] => []
  | p0, c :: cs =>
      promptEv os d prompt :: runningEv os d (split c) :: .spawn p0 (split c) ::
        .await p0 :: .out os d (.exitCode (status p0) false) ::
        serialBlocks status os d prompt (p0 + 1) cs

/-- Alternating spawn/await pairs with consecutive pids: the process-event
skeleton of a serial session. -/
def pairSeq : Nat → List (List String) → List Ev
  | _, [] => []
  | p0, sl :: rest => .spawn p0 sl :: .await p0 :: pairSeq (p0 + 1) rest

/-- `n` consecutive pids starting at `p`: the pids handed out for `n`
consecutive spawns. -/
def pidRange : Nat → Nat → List Nat
  | _, 0 => []
  | p, n + 1 => p :: pidRange (p + 1) n

/-- The pid of a spawn event. -/
def spawnPid? : Ev → Option Nat
  | .spawn p _ => some p
  | _ => none

/-- The pid of an await event. -/
def awaitPid? : Ev → Option Nat
  | .await p => some p
  | _ => none

/-- The pid and argument vector of a spawn event. -/
def spawnOf? : Ev → Option (Nat × List String)
  | .spawn p c => some (p, c)
  | _ => none

/-- The integer of an `Exit code: ...` write. -/
def reportedCode? : Ev → Option Int
  | .out _ _ (.exitCode c _) => some c
  | _ => none

/-- Pids of all spawn events of a trace, in order. -/
def spawnPids (t : List Ev) : List Nat := t.filterMap spawnPid?

/-- Pids of all await events of a trace, in order. -/
def awaitPids (t : List Ev) : List Nat := t.filterMap awaitPid?

/-- All spawn events of a trace, as (pid, argument vector), in order. -/
def spawns (t : List Ev) : List (Nat × List String) := t.filterMap spawnOf?

/-- All reported exit codes of a trace, in order. -/
def reportedCodes (t : List Ev) : List Int := t.filterMap reportedCode?

/-- The sub-trace of process events (spawns and awaits). -/
def procEvents (t : List Ev) : List Ev :=
  t.filter fun e => (spawnPid? e).isSome || (awaitPid? e).isSome

/-- Whether a write is a drain-phase exit-code line (printed by
`waitForParalellCommands`). -/
def isDrainOut : OutKind → Bool
  | .exitCode _ true => true
  | _ => false

/-- A syntactic word of the command-line grammar: a bare token or a quoted
token. -/
inductive QWord where
  | bareW (s : String)
  | quotedW (s : String)
deriving DecidableEq

/-- The concrete text of a word on the line: quoted words get their
delimiters back. -/
def QWord.render : QWord → String
  | .bareW s => s
  | .quotedW s => "\"" ++ s ++ "\""

/-- The word a token denotes: the token text with quoting delimiters
stripped. -/
def QWord.value : QWord → String
  | .bareW s => s
  | .quotedW s => s

/-- Well-formedness per the grammar: a bare token is non-empty and contains
no whitespace and no quote character; a quoted token's content contains no
quote character and no escape character. -/
def wfWord : QWord → Prop
  | .bareW s => s.data ≠ [] ∧ ∀ c ∈ s.data, isWs c = false ∧ c ≠ '"'
  | .quotedW s => ∀ c ∈ s.data, c ≠ '"' ∧ c ≠ '\\'

instance : DecidablePred wfWord := fun w => by cases w <;> (unfold wfWord; infer_instance)

/-- The characters of a well-formed command line given as a sequence of
(whitespace-separator, word) pairs: each word is preceded by its separating
whitespace run (the first run may be empty — no leading whitespace — while
the grammar's `WS+` requires every interior run to be non-empty). -/
def lineData : List (List Char × QWord) → List Char
  | [] => []
  | (sep, w) :: rest => sep ++ w.render.data ++ lineData rest

/-! ## Helper lemmas -/

lemma sessLoop_nil (rn : String → Bool → Nat → List Ev × Nat × Flag) (status : Nat → Int)
    (os : Sink) (pm : Bool) (prompt : String) (d : Nat) (nl : Bool) (p0 : Nat)
    (pids : List Nat) :
    sessLoop rn status os pm prompt d [] nl p0 pids
      = (promptEv os d prompt :: (if pm then drainEvs status d pids else []), p0, .ok) := rfl

lemma processCmds_run (fs : FS) (status : Nat → Int) (fuel : Nat) (lines : List String)
    (nl : Bool) (os : Sink) (pm : Bool) (prompt : String) (d p0 : Nat) (pids : List Nat) :
    ∃ rn, processCmds fs status fuel ⟨lines, nl⟩ os pm prompt d p0 pids
      = sessLoop rn status os pm prompt d lines nl p0 pids := by
  cases fuel <;> exact ⟨_, rfl⟩

lemma sessLoop_cons_plain (rn : String → Bool → Nat → List Ev × Nat × Flag)
    (status : Nat → Int) (os : Sink) (pm : Bool) (prompt : String) (d : Nat)
    (l : String) (ls : List String) (nl : Bool) (p0 : Nat) (pids : List Nat)
    (h : PlainCmd l) (hnl : (ls.isEmpty && !nl) = false) :
    sessLoop rn status os pm prompt d (l :: ls) nl p0 pids
      = if pm then
          (promptEv os d prompt :: runningEv os d (split l) :: .spawn p0 (split l) ::
             (sessLoop rn status os pm prompt d ls nl (p0 + 1) (pids ++ [p0])).1,
           (sessLoop rn status os pm prompt d ls nl (p0 + 1) (pids ++ [p0])).2)
        else
          (promptEv os d prompt :: runningEv os d (split l) :: .spawn p0 (split l) ::
             .await p0 :: .out os d (.exitCode (status p0) false) ::
             (sessLoop rn status os pm prompt d ls nl (p0 + 1) pids).1,
           (sessLoop rn status os pm prompt d ls nl (p0 + 1) pids).2) := by
  obtain ⟨h1, h2, h3, h4⟩ := h
  simp only [sessLoop, h1, h2, h3, h4, hnl, Bool.false_eq_true, if_false, or_self]

lemma drainEvs_append (status : Nat → Int) (d : Nat) (xs ys : List Nat) :
    drainEvs status d (xs ++ ys) = drainEvs status d xs ++ drainEvs status d ys := by
  induction xs with
  | nil => rfl
  | cons x xs ih => simp [drainEvs, ih]

lemma awaitPids_drainEvs (status : Nat → Int) (d : Nat) (pids : List Nat) :
    awaitPids (drainEvs status d pids) = pids := by
  induction pids with
  | nil => rfl
  | cons p ps ih => simp [drainEvs, awaitPids, List.filterMap_cons, awaitPid?] at ih ⊢; exact ih

lemma spawnPids_drainEvs (status : Nat → Int) (d : Nat) (pids : List Nat) :
    spawnPids (drainEvs status d pids) = [] := by
  induction pids with
  | nil => rfl
  | cons p ps ih => simp [drainEvs, spawnPids, List.filterMap_cons, spawnPid?] at ih ⊢; exact ih

lemma reportedCodes_drainEvs (status : Nat → Int) (d : Nat) (pids : List Nat) :
    reportedCodes (drainEvs status d pids) = pids.map status := by
  induction pids with
  | nil => rfl
  | cons p ps ih =>
      simp [drainEvs, reportedCodes, List.filterMap_cons, reportedCode?] at ih ⊢; exact ih

lemma directive_head (l : String)
    (h : (split l).headD "" = "SERIAL" ∨ (split l).headD "" = "PARALLEL") :
    checkIgnore (split l) = false ∧ (split l).headD "" ≠ "exit" := by
  rcases hsl : split l with _ | ⟨a, t⟩
  · rw [hsl] at h; rcases h with h | h <;> simp [List.headD] at h
  · rw [hsl] at h; simp only [List.headD] at h ⊢
    rcases h with rfl | rfl <;>
      exact ⟨by simp [checkIgnore], by decide⟩

lemma not_empty_append_cons (cs : List String) (x : String) (xs : List String) (nl : Bool) :
    ((cs ++ x :: xs).isEmpty && !nl) = false := by
  cases cs <;> simp

lemma par_phase (rn : String → Bool → Nat → List Ev × Nat × Flag) (status : Nat → Int)
    (os : Sink) (prompt : String) (d : Nat) :
    ∀ (cmds tail : List String) (nl : Bool) (p0 : Nat) (pids : List Nat),
      (∀ c ∈ cmds, PlainCmd c) → (tail = [] → nl = true) →
      sessLoop rn status os true prompt d (cmds ++ tail) nl p0 pids
        = (parBlocks os d prompt p0 cmds ++
             (sessLoop rn status os true prompt d tail nl (p0 + cmds.length)
               (pids ++ pidRange p0 cmds.length)).1,
           (sessLoop rn status os true prompt d tail nl (p0 + cmds.length)
             (pids ++ pidRange p0 cmds.length)).2) := by
  intro cmds
  induction cmds with
  | nil => intro tail nl p0 pids _ _; simp [parBlocks, pidRange]
  | cons c cs ih =>
      intro tail nl p0 pids h htail
      have hnl : (((cs ++ tail).isEmpty) && !nl) = false := by
        cases hct : cs ++ tail with
        | nil =>
            have : tail = [] := (List.append_eq_nil.mp hct).2
            simp [htail this]
        | cons x xs => simp
      rw [List.cons_append, sessLoop_cons_plain rn status os true prompt d c (cs ++ tail) nl
        p0 pids (h c (by simp)) hnl]
      simp only [if_pos rfl]
      rw [ih tail nl (p0 + 1) (pids ++ [p0]) (fun x hx => h x (by simp [hx])) htail]
      have hp : p0 + 1 + cs.length = p0 + (cs.length + 1) := by omega
      simp [parBlocks, pidRange, hp, List.append_assoc]

lemma ser_phase (rn : String → Bool → Nat → List Ev × Nat × Flag) (status : Nat → Int)
    (os : Sink) (prompt : String) (d : Nat) :
    ∀ (cmds tail : List String) (nl : Bool) (p0 : Nat) (pids : List Nat),
      (∀ c ∈ cmds, PlainCmd c) → (tail = [] → nl = true) →
      sessLoop rn status os false prompt d (cmds ++ tail) nl p0 pids
        = (serialBlocks status os d prompt p0 cmds ++
             (sessLoop rn status os false prompt d tail nl (p0 + cmds.length) pids).1,
           (sessLoop rn status os false prompt d tail nl (p0 + cmds.length) pids).2) := by
  intro cmds
  induction cmds with
  | nil => intro tail nl p0 pids _ _; simp [serialBlocks]
  | cons c cs ih =>
      intro tail nl p0 pids h htail
      have hnl : (((cs ++ tail).isEmpty) && !nl) = false := by
        cases hct : cs ++ tail with
        | nil =>
            have : tail = [] := (List.append_eq_nil.mp hct).2
            simp [htail this]
        | cons x xs => simp
      rw [List.cons_append, sessLoop_cons_plain rn status os false prompt d c (cs ++ tail) nl
        p0 pids (h c (by simp)) hnl]
      simp only [Bool.false_eq_true, if_false]
      rw [ih tail nl (p0 + 1) pids (fun x hx => h x (by simp [hx])) htail]
      have hp : p0 + 1 + cs.length = p0 + (cs.length + 1) := by omega
      simp [serialBlocks, hp]

lemma sessLoop_exit (rn : String → Bool → Nat → List Ev × Nat × Flag) (status : Nat → Int)
    (os : Sink) (pm : Bool) (prompt : String) (d : Nat) (l : String) (ls : List String)
    (nl : Bool) (p0 : Nat) (pids : List Nat)
    (hig : checkIgnore (split l) = false) (hex : (split l).headD "" = "exit") :
    sessLoop rn status os pm prompt d (l :: ls) nl p0 pids
      = (promptEv os d prompt :: (if pm then drainEvs status d pids else []), p0, .ok) := by
  simp only [sessLoop]
  rw [if_neg (by simp [hig]), if_pos hex]

lemma awaitPids_parBlocks (os : Sink) (d : Nat) (prompt : String) :
    ∀ (p0 : Nat) (cmds : List String), awaitPids (parBlocks os d prompt p0 cmds) = [] := by
  intro p0 cmds
  induction cmds generalizing p0 with
  | nil => rfl
  | cons c cs ih =>
      simp [parBlocks, awaitPids, List.filterMap_cons, awaitPid?, promptEv, runningEv] at ih ⊢
      exact ih _

lemma spawns_parBlocks (os : Sink) (d : Nat) (prompt : String) :
    ∀ (p0 : Nat) (cmds : List String),
      spawns (parBlocks os d prompt p0 cmds) = (pidRange p0 cmds.length).zip (cmds.map split) := by
  intro p0 cmds
  induction cmds generalizing p0 with
  | nil => rfl
  | cons c cs ih =>
      simp [parBlocks, spawns, List.filterMap_cons, spawnOf?, promptEv, runningEv,
        pidRange] at ih ⊢
      exact ih _

lemma spawnPids_serialBlocks (status : Nat → Int) (os : Sink) (d : Nat) (prompt : String) :
    ∀ (p0 : Nat) (cmds : List String),
      spawnPids (serialBlocks status os d prompt p0 cmds) = pidRange p0 cmds.length := by
  intro p0 cmds
  induction cmds generalizing p0 with
  | nil => rfl
  | cons c cs ih =>
      simp [serialBlocks, spawnPids, List.filterMap_cons, spawnPid?, promptEv, runningEv,
        pidRange] at ih ⊢
      exact ih _

lemma awaitPids_serialBlocks (status : Nat → Int) (os : Sink) (d : Nat) (prompt : String) :
    ∀ (p0 : Nat) (cmds : List String),
      awaitPids (serialBlocks status os d prompt p0 cmds) = pidRange p0 cmds.length := by
  intro p0 cmds
  induction cmds generalizing p0 with
  | nil => rfl
  | cons c cs ih =>
      simp [serialBlocks, awaitPids, List.filterMap_cons, awaitPid?, promptEv, runningEv,
        pidRange] at ih ⊢
      exact ih _

lemma procEvents_serialBlocks (status : Nat → Int) (os : Sink) (d : Nat) (prompt : String) :
    ∀ (p0 : Nat) (cmds : List String),
      procEvents (serialBlocks status os d prompt p0 cmds) = pairSeq p0 (cmds.map split) := by
  intro p0 cmds
  induction cmds generalizing p0 with
  | nil => rfl
  | cons c cs ih =>
      simp [serialBlocks, procEvents, List.filter_cons, spawnPid?, awaitPid?, promptEv,
        runningEv, pairSeq] at ih ⊢
      exact ih _

lemma pairSeq_counts :
    ∀ (sls : List (List String)) (p0 n : Nat),
      (awaitPids ((pairSeq p0 sls).take n)).length
          ≤ (spawnPids ((pairSeq p0 sls).take n)).length
        ∧ (spawnPids ((pairSeq p0 sls).take n)).length
          ≤ (awaitPids ((pairSeq p0 sls).take n)).length + 1 := by
  intro sls
  induction sls with
  | nil => intro p0 n; simp [pairSeq, spawnPids, awaitPids]
  | cons sl rest ih =>
      intro p0 n
      match n with
      | 0 => simp [spawnPids, awaitPids]
      | 1 => simp [pairSeq, spawnPids, awaitPids, List.filterMap_cons, spawnPid?, awaitPid?]
      | n + 2 =>
          have h := ih (p0 + 1) n
          simp only [pairSeq, List.take_succ_cons, spawnPids, awaitPids,
            List.filterMap_cons, spawnPid?, awaitPid?, List.length_cons] at h ⊢
          omega

lemma spawnPids_append (a b : List Ev) : spawnPids (a ++ b) = spawnPids a ++ spawnPids b := by
  simp [spawnPids]

lemma awaitPids_append (a b : List Ev) : awaitPids (a ++ b) = awaitPids a ++ awaitPids b := by
  simp [awaitPids]

lemma procEvents_append (a b : List Ev) :
    procEvents (a ++ b) = procEvents a ++ procEvents b := by
  simp [procEvents]

lemma processCmds_runAll (fs : FS) (status : Nat → Int) (fuel : Nat) (os : Sink) (pm : Bool)
    (prompt : String) (d : Nat) :
    ∃ rn, ∀ (lines : List String) (nl : Bool) (p0 : Nat) (pids : List Nat),
      processCmds fs status fuel ⟨lines, nl⟩ os pm prompt d p0 pids
        = sessLoop rn status os pm prompt d lines nl p0 pids := by
  cases fuel <;> exact ⟨_, fun _ _ _ _ => rfl⟩

lemma sessLoop_oob (rn : String → Bool → Nat → List Ev × Nat × Flag) (status : Nat → Int)
    (os : Sink) (pm : Bool) (prompt : String) (d : Nat) (l : String) (ls : List String)
    (nl : Bool) (p0 : Nat) (pids : List Nat)
    (h : (split l).headD "" = "SERIAL" ∨ (split l).headD "" = "PARALLEL")
    (hno : (split l)[1]? = none) :
    sessLoop rn status os pm prompt d (l :: ls) nl p0 pids
      = ([promptEv os d prompt], p0, .oob) := by
  obtain ⟨hig, hex⟩ := directive_head l h
  simp only [sessLoop]
  rw [if_neg (by simp [hig]), if_neg hex, if_pos h, hno]

lemma sessLoop_directive (rn : String → Bool → Nat → List Ev × Nat × Flag) (status : Nat → Int)
    (os : Sink) (pm : Bool) (prompt : String) (d : Nat) (l : String) (ls : List String)
    (nl : Bool) (p0 : Nat) (pids : List Nat) (path : String)
    (h : (split l).headD "" = "SERIAL" ∨ (split l).headD "" = "PARALLEL")
    (hpath : (split l)[1]? = some path) :
    sessLoop rn status os pm prompt d (l :: ls) nl p0 pids
      = (match (rn path ((split l).headD "" == "PARALLEL") p0).2.2 with
         | .ok => (promptEv os d prompt :: (rn path ((split l).headD "" == "PARALLEL") p0).1
                     ++ (if pm then drainEvs status d pids else []),
                   (rn path ((split l).headD "" == "PARALLEL") p0).2.1, .ok)
         | f => (promptEv os d prompt :: (rn path ((split l).headD "" == "PARALLEL") p0).1,
                 (rn path ((split l).headD "" == "PARALLEL") p0).2.1, f)) := by
  obtain ⟨hig, hex⟩ := directive_head l h
  simp only [sessLoop]
  rw [if_neg (by simp [hig]), if_neg hex, if_pos h, hpath]

lemma processCmds_nil (fs : FS) (status : Nat → Int) (fuel : Nat) (nl : Bool) (os : Sink)
    (pm : Bool) (prompt : String) (d p0 : Nat) (pids : List Nat) :
    processCmds fs status fuel ⟨[], nl⟩ os pm prompt d p0 pids
      = (promptEv os d prompt :: (if pm then drainEvs status d pids else []), p0, .ok) := by
  obtain ⟨rn, hrn⟩ := processCmds_run fs status fuel [] nl os pm prompt d p0 pids
  rw [hrn, sessLoop_nil]

lemma sessLoop_dropUnterminated (rn : String → Bool → Nat → List Ev × Nat × Flag)
    (status : Nat → Int) (os : Sink) (pm : Bool) (prompt : String) (d : Nat) (c : String)
    (hc : PlainCmd c) :
    ∀ (pre : List String) (p0 : Nat) (pids : List Nat),
      sessLoop rn status os pm prompt d (pre ++ [c]) false p0 pids
        = sessLoop rn status os pm prompt d pre true p0 pids := by
  intro pre
  induction pre with
  | nil =>
      intro p0 pids
      obtain ⟨h1, h2, h3, h4⟩ := hc
      simp only [List.nil_append, sessLoop, h1, h2, h3, h4, Bool.false_eq_true, if_false,
        or_self, List.isEmpty_nil, Bool.not_false, Bool.and_self, if_true]
  | cons l ls ih =>
      intro p0 pids
      by_cases hig : checkIgnore (split l) = true
      · simp only [List.cons_append, sessLoop, List.append_eq]
        rw [if_pos hig, if_pos hig, ih]
      · by_cases hex : (split l).headD "" = "exit"
        · rw [List.cons_append,
            sessLoop_exit rn status os pm prompt d l (ls ++ [c]) false p0 pids
              (by simpa using hig) hex,
            sessLoop_exit rn status os pm prompt d l ls true p0 pids
              (by simpa using hig) hex]
        · by_cases hdir : (split l).headD "" = "SERIAL" ∨ (split l).headD "" = "PARALLEL"
          · rcases hp : (split l)[1]? with _ | path
            · rw [List.cons_append,
                sessLoop_oob rn status os pm prompt d l (ls ++ [c]) false p0 pids hdir hp,
                sessLoop_oob rn status os pm prompt d l ls true p0 pids hdir hp]
            · rw [List.cons_append,
                sessLoop_directive rn status os pm prompt d l (ls ++ [c]) false p0 pids
                  path hdir hp,
                sessLoop_directive rn status os pm prompt d l ls true p0 pids path hdir hp]
          · have hplain : PlainCmd l :=
              ⟨by simpa using hig, hex, (not_or.mp hdir).1, (not_or.mp hdir).2⟩
            have hnl1 : (((ls ++ [c]).isEmpty) && !false) = false := by cases ls <;> simp
            have hnl2 : ((ls.isEmpty) && !true) = false := by simp
            rw [List.cons_append,
              sessLoop_cons_plain rn status os pm prompt d l (ls ++ [c]) false p0 pids
                hplain hnl1,
              sessLoop_cons_plain rn status os pm prompt d l ls true p0 pids hplain hnl2,
              ih, ih]

lemma drainEvs_mem (status : Nat → Int) (d : Nat) :
    ∀ (pids : List Nat) (s : Sink) (dd : Nat) (k : OutKind),
      Ev.out s dd k ∈ drainEvs status d pids →
        s = Sink.stdout ∧ dd = d ∧ isDrainOut k = true := by
  intro pids
  induction pids with
  | nil => intro s dd k hm; simp [drainEvs] at hm
  | cons p ps ih =>
      intro s dd k hm
      simp only [drainEvs, List.mem_cons] at hm
      rcases hm with hm | hm | hm
      · exact absurd hm (by simp)
      · simp only [Ev.out.injEq] at hm
        obtain ⟨rfl, rfl, rfl⟩ := hm
        exact ⟨rfl, rfl, rfl⟩
      · exact ih s dd k hm

lemma mem_ite_drain (status : Nat → Int) (d : Nat) (pids : List Nat) (pm : Bool) (s : Sink)
    (dd : Nat) (k : OutKind)
    (hm : Ev.out s dd k ∈ (if pm then drainEvs status d pids else [])) :
    s = Sink.stdout ∧ dd = d ∧ isDrainOut k = true := by
  cases pm
  · simp at hm
  · exact drainEvs_mem status d pids s dd k hm

lemma own_out (os : Sink) (d : Nat) (k : OutKind) (hk : isDrainOut k = false) :
    d ≤ d ∧ (isDrainOut k = true → os = Sink.stdout) ∧ (d ≠ d → os = Sink.stdout)
      ∧ (d = d → isDrainOut k = false → os = os) :=
  ⟨le_refl d, fun h => absurd h (by simp [hk]), fun h => absurd rfl h, fun _ _ => rfl⟩

lemma drain_out (os : Sink) (d : Nat) (k : OutKind) (hk : isDrainOut k = true) :
    d ≤ d ∧ (isDrainOut k = true → Sink.stdout = Sink.stdout)
      ∧ (d ≠ d → Sink.stdout = Sink.stdout)
      ∧ (d = d → isDrainOut k = false → Sink.stdout = os) :=
  ⟨le_refl d, fun _ => rfl, fun _ => rfl, fun _ hf => absurd hk (by simp [hf])⟩

lemma rn_out (os s : Sink) (d dd : Nat) (k : OutKind) (h1 : d < dd) (h2 : s = Sink.stdout) :
    d ≤ dd ∧ (isDrainOut k = true → s = Sink.stdout) ∧ (dd ≠ d → s = Sink.stdout)
      ∧ (dd = d → isDrainOut k = false → s = os) :=
  ⟨Nat.le_of_lt h1, fun _ => h2, fun _ => h2, fun hdd => absurd hdd (by omega)⟩

lemma sessLoop_ignore (rn : String → Bool → Nat → List Ev × Nat × Flag) (status : Nat → Int)
    (os : Sink) (pm : Bool) (prompt : String) (d : Nat) (l : String) (ls : List String)
    (nl : Bool) (p0 : Nat) (pids : List Nat) (hig : checkIgnore (split l) = true) :
    sessLoop rn status os pm prompt d (l :: ls) nl p0 pids
      = (promptEv os d prompt :: (sessLoop rn status os pm prompt d ls nl p0 pids).1,
         (sessLoop rn status os pm prompt d ls nl p0 pids).2) := by
  simp only [sessLoop]
  rw [if_pos hig]

lemma sessLoop_sinks (rn : String → Bool → Nat → List Ev × Nat × Flag) (status : Nat → Int)
    (os : Sink) (pm : Bool) (prompt : String) (d : Nat)
    (hrn : ∀ (path : String) (b : Bool) (p : Nat) (s : Sink) (dd : Nat) (k : OutKind),
      Ev.out s dd k ∈ (rn path b p).1 → d < dd ∧ s = Sink.stdout) :
    ∀ (lines : List String) (nl : Bool) (p0 : Nat) (pids : List Nat) (s : Sink) (dd : Nat)
      (k : OutKind),
      Ev.out s dd k ∈ (sessLoop rn status os pm prompt d lines nl p0 pids).1 →
        d ≤ dd ∧ (isDrainOut k = true → s = Sink.stdout) ∧ (dd ≠ d → s = Sink.stdout)
          ∧ (dd = d → isDrainOut k = false → s = os) := by
  intro lines
  induction lines with
  | nil =>
      intro nl p0 pids s dd k hm
      rw [sessLoop_nil] at hm
      rcases List.mem_cons.mp hm with hm | hm
      · simp only [promptEv, Ev.out.injEq] at hm
        obtain ⟨rfl, rfl, rfl⟩ := hm
        exact own_out _ _ _ rfl
      · obtain ⟨rfl, rfl, hk⟩ := mem_ite_drain status d pids pm s dd k hm
        exact drain_out _ _ _ hk
  | cons l ls ih =>
      intro nl p0 pids s dd k hm
      by_cases hig : checkIgnore (split l) = true
      · rw [sessLoop_ignore rn status os pm prompt d l ls nl p0 pids hig] at hm
        replace hm : Ev.out s dd k
            ∈ promptEv os d prompt :: (sessLoop rn status os pm prompt d ls nl p0 pids).1 := hm
        rcases List.mem_cons.mp hm with hm | hm
        · simp only [promptEv, Ev.out.injEq] at hm
          obtain ⟨rfl, rfl, rfl⟩ := hm
          exact own_out _ _ _ rfl
        · exact ih nl p0 pids s dd k hm
      · by_cases hex : (split l).headD "" = "exit"
        · rw [sessLoop_exit rn status os pm prompt d l ls nl p0 pids
            (by simpa using hig) hex] at hm
          rcases List.mem_cons.mp hm with hm | hm
          · simp only [promptEv, Ev.out.injEq] at hm
            obtain ⟨rfl, rfl, rfl⟩ := hm
            exact own_out _ _ _ rfl
          · obtain ⟨rfl, rfl, hk⟩ := mem_ite_drain status d pids pm s dd k hm
            exact drain_out _ _ _ hk
        · by_cases hdir : (split l).headD "" = "SERIAL" ∨ (split l).headD "" = "PARALLEL"
          · rcases hp : (split l)[1]? with _ | path
            · rw [sessLoop_oob rn status os pm prompt d l ls nl p0 pids hdir hp] at hm
              rcases List.mem_cons.mp hm with hm | hm
              · simp only [promptEv, Ev.out.injEq] at hm
                obtain ⟨rfl, rfl, rfl⟩ := hm
                exact own_out _ _ _ rfl
              · simp at hm
            · rw [sessLoop_directive rn status os pm prompt d l ls nl p0 pids path
                hdir hp] at hm
              rcases hfl : (rn path ((split l).headD "" == "PARALLEL") p0).2.2 with _ | _ | _ <;>
                simp only [hfl] at hm
              · replace hm : Ev.out s dd k ∈ promptEv os d prompt ::
                    ((rn path ((split l).headD "" == "PARALLEL") p0).1
                      ++ (if pm then drainEvs status d pids else [])) := hm
                rcases List.mem_cons.mp hm with hm | hm
                · simp only [promptEv, Ev.out.injEq] at hm
                  obtain ⟨rfl, rfl, rfl⟩ := hm
                  exact own_out _ _ _ rfl
                · rcases List.mem_append.mp hm with hm | hm
                  · obtain ⟨h1, h2⟩ := hrn _ _ _ s dd k hm
                    exact rn_out _ _ _ _ _ h1 h2
                  · obtain ⟨rfl, rfl, hk⟩ := mem_ite_drain status d pids pm s dd k hm
                    exact drain_out _ _ _ hk
              all_goals
                replace hm : Ev.out s dd k ∈ promptEv os d prompt ::
                    (rn path ((split l).headD "" == "PARALLEL") p0).1 := hm
              all_goals
                rcases List.mem_cons.mp hm with hm | hm
                · simp only [promptEv, Ev.out.injEq] at hm
                  obtain ⟨rfl, rfl, rfl⟩ := hm
                  exact own_out _ _ _ rfl
                · obtain ⟨h1, h2⟩ := hrn _ _ _ s dd k hm
                  exact rn_out _ _ _ _ _ h1 h2
          · have hplain : PlainCmd l :=
              ⟨by simpa using hig, hex, (not_or.mp hdir).1, (not_or.mp hdir).2⟩
            by_cases heof : (ls.isEmpty && !nl) = true
            · simp only [sessLoop] at hm
              rw [if_neg hig, if_neg hex, if_neg hdir, if_pos heof] at hm
              rcases List.mem_cons.mp hm with hm | hm
              · simp only [promptEv, Ev.out.injEq] at hm
                obtain ⟨rfl, rfl, rfl⟩ := hm
                exact own_out _ _ _ rfl
              · obtain ⟨rfl, rfl, hk⟩ := mem_ite_drain status d pids pm s dd k hm
                exact drain_out _ _ _ hk
            · rw [sessLoop_cons_plain rn status os pm prompt d l ls nl p0 pids hplain
                (by simpa using heof)] at hm
              cases pm
              · simp only [Bool.false_eq_true, if_false] at hm
                replace hm : Ev.out s dd k ∈ promptEv os d prompt ::
                    runningEv os d (split l) :: Ev.spawn p0 (split l) :: Ev.await p0 ::
                    Ev.out os d (.exitCode (status p0) false) ::
                    (sessLoop rn status os false prompt d ls nl (p0 + 1) pids).1 := hm
                simp only [List.mem_cons] at hm
                rcases hm with hm | hm | hm | hm | hm | hm
                · simp only [promptEv, Ev.out.injEq] at hm
                  obtain ⟨rfl, rfl, rfl⟩ := hm
                  exact own_out _ _ _ rfl
                · simp only [runningEv, Ev.out.injEq] at hm
                  obtain ⟨rfl, rfl, rfl⟩ := hm
                  exact own_out _ _ _ rfl
                · exact absurd hm (by simp)
                · exact absurd hm (by simp)
                · simp only [Ev.out.injEq] at hm
                  obtain ⟨rfl, rfl, rfl⟩ := hm
                  exact own_out _ _ _ rfl
                · exact ih nl (p0 + 1) pids s dd k hm
              · simp only [if_pos rfl] at hm
                replace hm : Ev.out s dd k ∈ promptEv os d prompt ::
                    runningEv os d (split l) :: Ev.spawn p0 (split l) ::
                    (sessLoop rn status os true prompt d ls nl (p0 + 1) (pids ++ [p0])).1 := hm
                simp only [List.mem_cons] at hm
                rcases hm with hm | hm | hm | hm
                · simp only [promptEv, Ev.out.injEq] at hm
                  obtain ⟨rfl, rfl, rfl⟩ := hm
                  exact own_out _ _ _ rfl
                · simp only [runningEv, Ev.out.injEq] at hm
                  obtain ⟨rfl, rfl, rfl⟩ := hm
                  exact own_out _ _ _ rfl
                · exact absurd hm (by simp)
                · exact ih nl (p0 + 1) (pids ++ [p0]) s dd k hm

lemma processCmds_sinks (fs : FS) (status : Nat → Int) :
    ∀ (fuel : Nat) (inp : Input) (os : Sink) (pm : Bool) (prompt : String) (d p0 : Nat)
      (pids : List Nat) (s : Sink) (dd : Nat) (k : OutKind),
      Ev.out s dd k ∈ (processCmds fs status fuel inp os pm prompt d p0 pids).1 →
        d ≤ dd ∧ (isDrainOut k = true → s = Sink.stdout) ∧ (dd ≠ d → s = Sink.stdout)
          ∧ (dd = d → isDrainOut k = false → s = os) := by
  intro fuel
  induction fuel with
  | zero =>
      intro inp os pm prompt d p0 pids s dd k hm
      exact sessLoop_sinks _ status os pm prompt d
        (fun _ _ _ _ _ _ hx => absurd hx (by simp)) inp.lines inp.finalNl p0 pids s dd k hm
  | succ fuel ih =>
      intro inp os pm prompt d p0 pids s dd k hm
      refine sessLoop_sinks _ status os pm prompt d ?_ inp.lines inp.finalNl p0 pids s dd k hm
      intro path b p s' dd' k' hm'
      have h := ih (openFile fs path) Sink.stdout b "" (d + 1) p [] s' dd' k' hm'
      refine ⟨by omega, ?_⟩
      by_cases hdd : dd' = d + 1
      · by_cases hdk : isDrainOut k' = true
        · exact h.2.1 hdk
        · exact h.2.2.2 hdd (by simpa using hdk)
      · exact h.2.2.1 hdd

lemma splitAux_ws (cs : List Char) (h : ∀ c ∈ cs, isWs c = true) :
    splitAux .between [] cs = [] := by
  induction cs with
  | nil => rfl
  | cons c cs ih =>
      simp only [splitAux]
      rw [if_pos (h c (by simp))]
      exact ih fun x hx => h x (by simp [hx])

lemma bare_step :
    ∀ (b rest acc : List Char), (∀ c ∈ b, isWs c = false) →
      splitAux .bare acc (b ++ rest) = splitAux .bare (acc ++ b) rest := by
  intro b
  induction b with
  | nil => intro rest acc _; simp
  | cons c bs ih =>
      intro rest acc h
      simp only [List.cons_append, splitAux, List.append_eq]
      rw [if_neg (by simp [h c (by simp)]),
        ih rest (acc ++ [c]) (fun x hx => h x (by simp [hx]))]
      simp

lemma quoted_step :
    ∀ (q rest acc : List Char), (∀ c ∈ q, c ≠ '"' ∧ c ≠ '\\') →
      splitAux .quot acc (q ++ rest) = splitAux .quot (acc ++ q) rest := by
  intro q
  induction q with
  | nil => intro rest acc _; simp
  | cons c qs ih =>
      intro rest acc h
      simp only [List.cons_append, splitAux, List.append_eq]
      rw [if_neg (by simp [(h c (by simp)).1]), if_neg (by simp [(h c (by simp)).2]),
        ih rest (acc ++ [c]) (fun x hx => h x (by simp [hx]))]
      simp

lemma word_then_nil (w : QWord) (hw : wfWord w) :
    splitAux .between [] w.render.data = [w.value] := by
  cases w with
  | bareW s =>
      obtain ⟨hne, hchars⟩ := hw
      rcases hs : s.data with _ | ⟨c, bs⟩
      · exact absurd hs hne
      · show splitAux .between [] s.data = [s]
        rw [hs]
        simp only [splitAux]
        rw [if_neg (by simp [(hchars c (by rw [hs]; simp)).1]),
          if_neg (by simp [(hchars c (by rw [hs]; simp)).2])]
        have hb := bare_step bs [] [c] fun x hx => (hchars x (by rw [hs]; simp [hx])).1
        rw [List.append_nil] at hb
        rw [hb, List.singleton_append]
        show [String.mk (c :: bs)] = [s]
        rw [← hs]
  | quotedW s =>
      have hchars := hw
      have hd : (QWord.render (.quotedW s)).data = '"' :: (s.data ++ ['"']) := rfl
      rw [hd]
      simp only [splitAux]
      rw [if_neg (by decide), if_pos (by decide),
        quoted_step s.data ['"'] [] hchars]
      show [String.mk ([] ++ s.data)] = [s]
      rw [List.nil_append]

lemma word_then_sep (w : QWord) (hw : wfWord w) (sc : Char) (hsc : isWs sc = true)
    (tail : List Char) :
    splitAux .between [] (w.render.data ++ sc :: tail)
      = w.value :: splitAux .between [] tail := by
  cases w with
  | bareW s =>
      obtain ⟨hne, hchars⟩ := hw
      rcases hs : s.data with _ | ⟨c, bs⟩
      · exact absurd hs hne
      · show splitAux .between [] (s.data ++ sc :: tail) = s :: splitAux .between [] tail
        rw [hs]
        simp only [List.cons_append, splitAux, List.append_eq]
        rw [if_neg (by simp [(hchars c (by rw [hs]; simp)).1]),
          if_neg (by simp [(hchars c (by rw [hs]; simp)).2]),
          bare_step bs (sc :: tail) [c] fun x hx => (hchars x (by rw [hs]; simp [hx])).1]
        simp only [List.singleton_append, splitAux]
        rw [if_pos hsc]
        show (String.mk (c :: bs) :: splitAux .between [] tail) = _
        rw [← hs]
  | quotedW s =>
      have hchars := hw
      have hd : (QWord.render (.quotedW s)).data = '"' :: (s.data ++ ['"']) := rfl
      have hshape : ('"' :: (s.data ++ ['"'])) ++ sc :: tail
          = '"' :: (s.data ++ ('"' :: sc :: tail)) := by simp
      rw [hd, hshape]
      simp only [splitAux]
      rw [if_neg (by decide), if_pos (by decide),
        quoted_step s.data ('"' :: sc :: tail) [] hchars, List.nil_append]
      simp only [splitAux]
      rw [if_pos (by decide), if_pos hsc]
      show (String.mk s.data :: splitAux .between [] tail) = _
      rfl

lemma splitAux_skip :
    ∀ (sep cs : List Char), (∀ c ∈ sep, isWs c = true) →
      splitAux .between [] (sep ++ cs) = splitAux .between [] cs := by
  intro sep
  induction sep with
  | nil => intro cs _; rfl
  | cons c s ih =>
      intro cs h
      simp only [List.cons_append, splitAux]
      rw [if_pos (h c (by simp))]
      exact ih cs fun x hx => h x (by simp [hx])

lemma splitAux_lineData :
    ∀ (ps : List (List Char × QWord)) (trail : List Char),
      (∀ p ∈ ps, (∀ c ∈ p.1, isWs c = true) ∧ wfWord p.2) →
      (∀ p ∈ ps.tail, p.1 ≠ []) →
      (∀ c ∈ trail, isWs c = true) →
      splitAux .between [] (lineData ps ++ trail) = ps.map fun p => p.2.value := by
  intro ps
  induction ps with
  | nil => intro trail _ _ htr; simpa using splitAux_ws trail htr
  | cons p rest ih =>
      intro trail h hsep htr
      obtain ⟨sep, w⟩ := p
      have hw : wfWord w := (h (sep, w) (by simp)).2
      have hassoc : lineData ((sep, w) :: rest) ++ trail
          = sep ++ (w.render.data ++ (lineData rest ++ trail)) := by
        simp [lineData, List.append_assoc]
      rw [hassoc, splitAux_skip sep _ (h (sep, w) (by simp)).1]
      cases rest with
      | nil =>
          simp only [lineData, List.nil_append]
          cases htr2 : trail with
          | nil => simpa using word_then_nil w hw
          | cons tc tr =>
              rw [word_then_sep w hw tc (htr tc (by rw [htr2]; simp)) tr,
                splitAux_ws tr fun x hx => htr x (by rw [htr2]; simp [hx])]
              rfl
      | cons p2 rest2 =>
          obtain ⟨sep2, w2⟩ := p2
          have hsep2 : sep2 ≠ [] := hsep (sep2, w2) (by simp)
          obtain ⟨sc, s2t, rfl⟩ : ∃ a l, sep2 = a :: l := by
            cases sep2 with
            | nil => exact absurd rfl hsep2
            | cons a l => exact ⟨a, l, rfl⟩
          have hscws : isWs sc = true :=
            (h (sc :: s2t, w2) (by simp)).1 sc (by simp)
          have hT : lineData ((sc :: s2t, w2) :: rest2) ++ trail
              = sc :: (s2t ++ (w2.render.data ++ (lineData rest2 ++ trail))) := by
            simp [lineData, List.append_assoc]
          rw [hT, word_then_sep w hw sc hscws _]
          have hIH := ih trail (fun q hq => h q (by simp [hq]))
            (fun q hq => hsep q (List.mem_of_mem_tail hq)) htr
          rw [hT] at hIH
          have hskip : splitAux .between []
              (sc :: (s2t ++ (w2.render.data ++ (lineData rest2 ++ trail))))
              = splitAux .between [] (s2t ++ (w2.render.data ++ (lineData rest2 ++ trail))) := by
            simp only [splitAux]
            rw [if_pos hscws]
          rw [hskip] at hIH
          rw [hIH]
          rfl

/-! ## Claim theorems -/

/-- C1 counterexample: in a parallel-mode session that reads a command and
then an `exit` line, the spawned child IS awaited and its exit status IS
reported — `break` only leaves the read loop of `processCmds`, after which
line 159-161 of shell.cpp still drains `parPids` — contradicting the claim
that the Pending Handle Set is not drained after `exit`. -/
theorem C1_counterexample :
    Ev.await 0 ∈ sessionTrace (fun _ => none) (fun _ => 7) 1 ⟨["sleep 5", "exit"], true⟩
        Sink.stdout true "" 0 0 []
  ∧ Ev.out Sink.stdout 0 (OutKind.exitCode 7 true)
      ∈ sessionTrace (fun _ => none) (fun _ => 7) 1 ⟨["sleep 5", "exit"], true⟩
        Sink.stdout true "" 0 0 [] := by decide

/-- C1 (amended): in a parallel-mode session, an `exit` line stops the
reading of further lines (the result does not depend on the lines after
`exit`), but the already-spawned, not-yet-reaped children ARE drained before
termination: each pending handle is awaited in launch order and its exit
status reported. -/
theorem C1_exit_drains (fs : FS) (status : Nat → Int) (fuel : Nat)
    (cmds more : List String) (nl : Bool) (os : Sink) (prompt : String) (d p0 : Nat)
    (h : ∀ c ∈ cmds, PlainCmd c) :
    sessionTrace fs status fuel ⟨cmds ++ "exit" :: more, nl⟩ os true prompt d p0 []
        = (parBlocks os d prompt p0 cmds ++ [promptEv os d prompt])
            ++ drainEvs status d (pidRange p0 cmds.length)
  ∧ awaitPids (drainEvs status d (pidRange p0 cmds.length)) = pidRange p0 cmds.length
  ∧ reportedCodes (drainEvs status d (pidRange p0 cmds.length))
      = (pidRange p0 cmds.length).map status
  ∧ (processCmds fs status fuel ⟨cmds ++ "exit" :: more, nl⟩ os true prompt d p0 []).2
      = (p0 + cmds.length, Flag.ok) := by
  obtain ⟨rn, hrn⟩ := processCmds_run fs status fuel (cmds ++ "exit" :: more) nl os true
    prompt d p0 []
  have hph := par_phase rn status os prompt d cmds ("exit" :: more) nl p0 [] h (by simp)
  have hex := sessLoop_exit rn status os true prompt d "exit" more nl (p0 + cmds.length)
    ([] ++ pidRange p0 cmds.length) (by decide) (by decide)
  rw [List.nil_append] at hph hex
  refine ⟨?_, awaitPids_drainEvs _ _ _, reportedCodes_drainEvs _ _ _, ?_⟩
  · simp only [sessionTrace, hrn, hph, hex, if_pos rfl]
    simp
  · simp only [hrn, hph, hex, if_pos rfl]

/-- C1 witness. -/
theorem C1_witness :
    (∀ c ∈ ["sleep 5"], PlainCmd c)
  ∧ (sessionTrace (fun _ => none) (fun p => (p : Int)) 1 ⟨["sleep 5", "exit", "late"], true⟩
        Sink.stdout true "" 0 0 []
        = (parBlocks Sink.stdout 0 "" 0 ["sleep 5"] ++ [promptEv Sink.stdout 0 ""])
            ++ drainEvs (fun p => (p : Int)) 0 (pidRange 0 1)
      ∧ awaitPids (drainEvs (fun p => (p : Int)) 0 (pidRange 0 1)) = pidRange 0 1
      ∧ reportedCodes (drainEvs (fun p => (p : Int)) 0 (pidRange 0 1))
          = (pidRange 0 1).map (fun p => (p : Int))
      ∧ (processCmds (fun _ => none) (fun p => (p : Int)) 1 ⟨["sleep 5", "exit", "late"], true⟩
            Sink.stdout true "" 0 0 []).2 = (1, Flag.ok)) :=
  ⟨by decide,
   C1_exit_drains (fun _ => none) (fun p => (p : Int)) 1 ["sleep 5"] ["late"] true
     Sink.stdout "" 0 0 (by decide)⟩

/-- C2: in a parallel-mode session over N valid command lines followed by
end-of-input, the trace splits into a spawn phase `A` (containing no await)
followed by a drain phase `B` (containing no spawn); the spawn phase spawns
the N tokenized commands with consecutive pids in input order, and the drain
phase awaits exactly those pids and reports their statuses in launch order —
the reported codes are determined by the pid order, independent of any
completion order. -/
theorem C2_parallel_order (fs : FS) (status : Nat → Int) (fuel : Nat) (cmds : List String)
    (os : Sink) (prompt : String) (d p0 : Nat) (h : ∀ c ∈ cmds, PlainCmd c) :
    sessionTrace fs status fuel ⟨cmds, true⟩ os true prompt d p0 []
        = (parBlocks os d prompt p0 cmds ++ [promptEv os d prompt])
            ++ drainEvs status d (pidRange p0 cmds.length)
  ∧ awaitPids (parBlocks os d prompt p0 cmds ++ [promptEv os d prompt]) = []
  ∧ spawnPids (drainEvs status d (pidRange p0 cmds.length)) = []
  ∧ spawns (parBlocks os d prompt p0 cmds) = (pidRange p0 cmds.length).zip (cmds.map split)
  ∧ awaitPids (drainEvs status d (pidRange p0 cmds.length)) = pidRange p0 cmds.length
  ∧ reportedCodes (drainEvs status d (pidRange p0 cmds.length))
      = (pidRange p0 cmds.length).map status := by
  obtain ⟨rn, hrn⟩ := processCmds_run fs status fuel cmds true os true prompt d p0 []
  have hph := par_phase rn status os prompt d cmds [] true p0 [] h (fun _ => rfl)
  rw [List.append_nil] at hph
  refine ⟨?_, ?_, spawnPids_drainEvs _ _ _, spawns_parBlocks _ _ _ _ _,
    awaitPids_drainEvs _ _ _, reportedCodes_drainEvs _ _ _⟩
  · simp only [sessionTrace, hrn, hph, sessLoop_nil, List.nil_append, if_pos rfl]
    simp
  · rw [awaitPids_append, awaitPids_parBlocks]
    rfl

/-- C2 witness. -/
theorem C2_witness :
    (∀ c ∈ ["a b", "c"], PlainCmd c)
  ∧ (sessionTrace (fun _ => none) (fun p => (p : Int)) 1 ⟨["a b", "c"], true⟩
        (Sink.handle 0) true "> " 0 0 []
        = (parBlocks (Sink.handle 0) 0 "> " 0 ["a b", "c"] ++ [promptEv (Sink.handle 0) 0 "> "])
            ++ drainEvs (fun p => (p : Int)) 0 (pidRange 0 2)
      ∧ awaitPids (parBlocks (Sink.handle 0) 0 "> " 0 ["a b", "c"]
            ++ [promptEv (Sink.handle 0) 0 "> "]) = []
      ∧ spawnPids (drainEvs (fun p => (p : Int)) 0 (pidRange 0 2)) = []
      ∧ spawns (parBlocks (Sink.handle 0) 0 "> " 0 ["a b", "c"])
          = (pidRange 0 2).zip (["a b", "c"].map split)
      ∧ awaitPids (drainEvs (fun p => (p : Int)) 0 (pidRange 0 2)) = pidRange 0 2
      ∧ reportedCodes (drainEvs (fun p => (p : Int)) 0 (pidRange 0 2))
          = (pidRange 0 2).map (fun p => (p : Int))) :=
  ⟨by decide,
   C2_parallel_order (fun _ => none) (fun p => (p : Int)) 1 ["a b", "c"] (Sink.handle 0)
     "> " 0 0 (by decide)⟩

/-- C3 (code bug): the text printed for a dispatched command is NOT always
the argument vector joined by single spaces — the printing loop omits the
space after any word that compares equal to `command.back()`, so for the
argument vector `["echo", "hi", "echo"]` (an interior word equal to the last
word) the code prints `Running: echohi echo` instead of
`Running: echo hi echo`. -/
theorem C3_running_text_bug :
    renderCmd ["echo", "hi", "echo"] = "echohi echo"
  ∧ renderCmd ["echo", "hi", "echo"] ≠ "echo hi echo"
  ∧ Ev.out Sink.stdout 0 (OutKind.running "Running: echohi echo")
      ∈ sessionTrace (fun _ => none) (fun _ => 0) 1 ⟨["echo hi echo"], true⟩
        Sink.stdout false "> " 0 0 [] := by decide

/-- C4 counterexample: a `SERIAL` line with no path argument does NOT lead to
a recoverable, reported error with the session continuing — the model of
`processFirstWord` (shell.cpp line 124 accesses `line[1]` unconditionally)
flags an out-of-bounds access and the session produces no further events. -/
theorem C4_counterexample :
    (processCmds (fun _ => none) (fun _ => 0) 1 ⟨["SERIAL"], true⟩ (Sink.handle 1)
        false "> " 0 0 []).2.2 = Flag.oob
  ∧ (processCmds (fun _ => none) (fun _ => 0) 1 ⟨["SERIAL"], true⟩ (Sink.handle 1)
        false "> " 0 0 []).1 = [promptEv (Sink.handle 1) 0 "> "] := by decide

/-- C4 (amended): for every input line whose first token is `SERIAL` or
`PARALLEL` but which has no second token, `processCmds` reads past the end of
the argument vector (`line[1]` out of bounds, undefined behaviour): the model
stops the session with the `oob` flag, and no subsequent line is processed. -/
theorem C4_oob (fs : FS) (status : Nat → Int) (fuel : Nat) (l : String) (ls : List String)
    (nl : Bool) (os : Sink) (pm : Bool) (prompt : String) (d p0 : Nat) (pids : List Nat)
    (h : (split l).headD "" = "SERIAL" ∨ (split l).headD "" = "PARALLEL")
    (hno : (split l)[1]? = none) :
    processCmds fs status fuel ⟨l :: ls, nl⟩ os pm prompt d p0 pids
      = ([promptEv os d prompt], p0, Flag.oob) := by
  obtain ⟨hig, hex⟩ := directive_head l h
  obtain ⟨rn, hrn⟩ := processCmds_run fs status fuel (l :: ls) nl os pm prompt d p0 pids
  rw [hrn]
  simp only [sessLoop]
  rw [if_neg (by simp [hig]), if_neg hex, if_pos h, hno]

/-- C4 witness. -/
theorem C4_witness :
    ((split "PARALLEL").headD "" = "SERIAL" ∨ (split "PARALLEL").headD "" = "PARALLEL")
  ∧ (split "PARALLEL")[1]? = none
  ∧ processCmds (fun _ => none) (fun _ => 0) 3 ⟨["PARALLEL", "ls"], true⟩ Sink.stdout
      true "" 2 5 [4] = ([promptEv Sink.stdout 2 ""], 5, Flag.oob) :=
  ⟨by decide, by decide,
   C4_oob (fun _ => none) (fun _ => 0) 3 "PARALLEL" ["ls"] true Sink.stdout true "" 2 5 [4]
     (by decide) (by decide)⟩

/-- C5: in a serial-mode session over N valid command lines, the trace
consists of N per-command blocks (prompt, Running line, spawn, await,
exit-code report) with consecutive pids; projected to process events it is
exactly the alternating sequence spawn 0, await 0, spawn 1, await 1, ... — so
exactly N spawn/await pairs occur, each await strictly precedes the next
spawn, and at every prefix the number of spawned-but-not-awaited processes is
at most one. -/
theorem C5_serial_alternation (fs : FS) (status : Nat → Int) (fuel : Nat)
    (cmds : List String) (os : Sink) (prompt : String) (d p0 : Nat)
    (h : ∀ c ∈ cmds, PlainCmd c) :
    sessionTrace fs status fuel ⟨cmds, true⟩ os false prompt d p0 []
        = serialBlocks status os d prompt p0 cmds ++ [promptEv os d prompt]
  ∧ spawnPids (sessionTrace fs status fuel ⟨cmds, true⟩ os false prompt d p0 [])
      = pidRange p0 cmds.length
  ∧ awaitPids (sessionTrace fs status fuel ⟨cmds, true⟩ os false prompt d p0 [])
      = pidRange p0 cmds.length
  ∧ procEvents (sessionTrace fs status fuel ⟨cmds, true⟩ os false prompt d p0 [])
      = pairSeq p0 (cmds.map split)
  ∧ ∀ n, (awaitPids ((pairSeq p0 (cmds.map split)).take n)).length
          ≤ (spawnPids ((pairSeq p0 (cmds.map split)).take n)).length
       ∧ (spawnPids ((pairSeq p0 (cmds.map split)).take n)).length
          ≤ (awaitPids ((pairSeq p0 (cmds.map split)).take n)).length + 1 := by
  obtain ⟨rn, hrn⟩ := processCmds_run fs status fuel cmds true os false prompt d p0 []
  have hph := ser_phase rn status os prompt d cmds [] true p0 [] h (fun _ => rfl)
  rw [List.append_nil] at hph
  have htr : sessionTrace fs status fuel ⟨cmds, true⟩ os false prompt d p0 []
      = serialBlocks status os d prompt p0 cmds ++ [promptEv os d prompt] := by
    simp only [sessionTrace, hrn, hph, sessLoop_nil]
    simp
  refine ⟨htr, ?_, ?_, ?_, fun n => pairSeq_counts (cmds.map split) p0 n⟩
  · rw [htr, spawnPids_append, spawnPids_serialBlocks]
    simp [spawnPids, promptEv, spawnPid?]
  · rw [htr, awaitPids_append, awaitPids_serialBlocks]
    simp [awaitPids, promptEv, awaitPid?]
  · rw [htr, procEvents_append, procEvents_serialBlocks]
    simp [procEvents, promptEv, spawnPid?, awaitPid?]

/-- C6: a `SERIAL <path>`/`PARALLEL <path>` line opens the named file as a new
input source and runs a fresh session over it with the corresponding mode, an
empty prompt, output to standard output, a fresh empty Pending Handle Set and
one nesting level deeper; when that nested session completes normally the
enclosing session terminates (it only performs its final parallel drain, if
any) — and the result does not depend on the remaining lines of the enclosing
source, so no further line of the enclosing source is ever read
(replace-not-call). -/
theorem C6_nested_replaces_session (fs : FS) (status : Nat → Int) (fuel : Nat) (l : String)
    (rest rest' : List String) (nl nl' : Bool) (os : Sink) (pm : Bool) (prompt : String)
    (d p0 : Nat) (pids : List Nat) (path : String)
    (h : (split l).headD "" = "SERIAL" ∨ (split l).headD "" = "PARALLEL")
    (hpath : (split l)[1]? = some path) :
    (processCmds fs status (fuel + 1) ⟨l :: rest, nl⟩ os pm prompt d p0 pids
      = (match (processCmds fs status fuel (openFile fs path) Sink.stdout
                 ((split l).headD "" == "PARALLEL") "" (d + 1) p0 []).2.2 with
         | .ok => (promptEv os d prompt
                     :: (processCmds fs status fuel (openFile fs path) Sink.stdout
                          ((split l).headD "" == "PARALLEL") "" (d + 1) p0 []).1
                     ++ (if pm then drainEvs status d pids else []),
                   (processCmds fs status fuel (openFile fs path) Sink.stdout
                     ((split l).headD "" == "PARALLEL") "" (d + 1) p0 []).2.1, .ok)
         | f => (promptEv os d prompt
                   :: (processCmds fs status fuel (openFile fs path) Sink.stdout
                        ((split l).headD "" == "PARALLEL") "" (d + 1) p0 []).1,
                 (processCmds fs status fuel (openFile fs path) Sink.stdout
                   ((split l).headD "" == "PARALLEL") "" (d + 1) p0 []).2.1, f)))
  ∧ processCmds fs status (fuel + 1) ⟨l :: rest, nl⟩ os pm prompt d p0 pids
      = processCmds fs status (fuel + 1) ⟨l :: rest', nl'⟩ os pm prompt d p0 pids := by
  have hu : ∀ (ls : List String) (b : Bool),
      processCmds fs status (fuel + 1) ⟨l :: ls, b⟩ os pm prompt d p0 pids
        = sessLoop (fun pa isPar p =>
            processCmds fs status fuel (openFile fs pa) Sink.stdout isPar "" (d + 1) p [])
            status os pm prompt d (l :: ls) b p0 pids := fun _ _ => rfl
  constructor
  · rw [hu rest nl, sessLoop_directive _ status os pm prompt d l rest nl p0 pids path h hpath]
  · rw [hu rest nl, hu rest' nl',
      sessLoop_directive _ status os pm prompt d l rest nl p0 pids path h hpath,
      sessLoop_directive _ status os pm prompt d l rest' nl' p0 pids path h hpath]

/-- C6 witness. -/
theorem C6_witness :
    ((split "PARALLEL b").headD "" = "SERIAL" ∨ (split "PARALLEL b").headD "" = "PARALLEL")
  ∧ (split "PARALLEL b")[1]? = some "b"
  ∧ processCmds (fun p => if p = "b" then some ⟨["x y"], true⟩ else none) (fun _ => 0) 1
      ⟨["PARALLEL b", "never read"], true⟩ (Sink.handle 3) false "> " 0 0 []
      = processCmds (fun p => if p = "b" then some ⟨["x y"], true⟩ else none) (fun _ => 0) 1
          ⟨["PARALLEL b", "other", "tail"], false⟩ (Sink.handle 3) false "> " 0 0 [] :=
  ⟨by decide, by decide,
   (C6_nested_replaces_session (fun p => if p = "b" then some ⟨["x y"], true⟩ else none)
     (fun _ => 0) 0 "PARALLEL b" ["never read"] ["other", "tail"] true false (Sink.handle 3)
     false "> " 0 0 [] "b" (by decide) (by decide)).2⟩

/-- C8: when the file named by a `SERIAL`/`PARALLEL` directive cannot be
opened, the nested session observes immediate end-of-input: it emits only its
(empty) prompt, spawns nothing, and completes normally, after which the
enclosing session performs its final drain (if parallel) and terminates with
the `ok` flag — the failure is not fatal. -/
theorem C8_nested_open_failure (fs : FS) (status : Nat → Int) (fuel : Nat) (l : String)
    (rest : List String) (nl : Bool) (os : Sink) (pm : Bool) (prompt : String)
    (d p0 : Nat) (pids : List Nat) (path : String)
    (h : (split l).headD "" = "SERIAL" ∨ (split l).headD "" = "PARALLEL")
    (hpath : (split l)[1]? = some path)
    (hfs : fs path = none) :
    processCmds fs status (fuel + 1) ⟨l :: rest, nl⟩ os pm prompt d p0 pids
      = (promptEv os d prompt :: promptEv Sink.stdout (d + 1) ""
           :: (if pm then drainEvs status d pids else []), p0, Flag.ok) := by
  have hu : processCmds fs status (fuel + 1) ⟨l :: rest, nl⟩ os pm prompt d p0 pids
      = sessLoop (fun pa isPar p =>
          processCmds fs status fuel (openFile fs pa) Sink.stdout isPar "" (d + 1) p [])
          status os pm prompt d (l :: rest) nl p0 pids := rfl
  have hopen : openFile fs path = ⟨[], true⟩ := by simp [openFile, hfs]
  have hnested : ∀ b : Bool,
      processCmds fs status fuel (openFile fs path) Sink.stdout b "" (d + 1) p0 []
        = ([promptEv Sink.stdout (d + 1) ""], p0, Flag.ok) := by
    intro b
    rw [hopen, processCmds_nil]
    cases b <;> simp [drainEvs]
  rw [hu, sessLoop_directive _ status os pm prompt d l rest nl p0 pids path h hpath,
    hnested]
  rfl

/-- C8 witness. -/
theorem C8_witness :
    ((split "SERIAL gone.txt").headD "" = "SERIAL"
       ∨ (split "SERIAL gone.txt").headD "" = "PARALLEL")
  ∧ (split "SERIAL gone.txt")[1]? = some "gone.txt"
  ∧ (fun (_ : String) => (none : Option Input)) "gone.txt" = none
  ∧ processCmds (fun _ => none) (fun _ => 0) 1 ⟨["SERIAL gone.txt", "x"], true⟩
      (Sink.handle 2) true "> " 0 0 [5]
      = (promptEv (Sink.handle 2) 0 "> " :: promptEv Sink.stdout 1 ""
           :: drainEvs (fun _ => 0) 0 [5], 0, Flag.ok) :=
  ⟨by decide, by decide, rfl,
   C8_nested_open_failure (fun _ => none) (fun _ => 0) 0 "SERIAL gone.txt" ["x"] true
     (Sink.handle 2) true "> " 0 0 [5] "gone.txt" (by decide) (by decide) rfl⟩

/-- C9: if the final line of an input source is not newline-terminated, a
command on that line is read and classified but never dispatched: the whole
run over `pre ++ [c]` with an unterminated final line `c` is
indistinguishable from the run over just `pre` — the command `c` is silently
dropped because `is.eof()` is tested in the same condition that breaks the
loop, before the dispatch branch. -/
theorem C9_unterminated_final_dropped (fs : FS) (status : Nat → Int) (fuel : Nat)
    (pre : List String) (c : String) (os : Sink) (pm : Bool) (prompt : String)
    (d p0 : Nat) (pids : List Nat) (hc : PlainCmd c) :
    processCmds fs status fuel ⟨pre ++ [c], false⟩ os pm prompt d p0 pids
      = processCmds fs status fuel ⟨pre, true⟩ os pm prompt d p0 pids := by
  obtain ⟨rn, hrn⟩ := processCmds_runAll fs status fuel os pm prompt d
  rw [hrn, hrn, sessLoop_dropUnterminated rn status os pm prompt d c hc pre p0 pids]

/-- C9 witness. -/
theorem C9_witness :
    PlainCmd "b c"
  ∧ processCmds (fun _ => none) (fun p => (p : Int)) 1 ⟨["a", "b c"], false⟩ Sink.stdout
      false "> " 0 0 []
      = processCmds (fun _ => none) (fun p => (p : Int)) 1 ⟨["a"], true⟩ Sink.stdout
          false "> " 0 0 [] :=
  ⟨by decide,
   C9_unterminated_final_dropped (fun _ => none) (fun p => (p : Int)) 1 ["a"] "b c"
     Sink.stdout false "> " 0 0 [] (by decide)⟩

/-- C5 witness. -/
theorem C5_witness :
    (∀ c ∈ ["a b", "c"], PlainCmd c)
  ∧ (sessionTrace (fun _ => none) (fun p => (p : Int)) 1 ⟨["a b", "c"], true⟩
        (Sink.handle 0) false "> " 0 0 []
        = serialBlocks (fun p => (p : Int)) (Sink.handle 0) 0 "> " 0 ["a b", "c"]
            ++ [promptEv (Sink.handle 0) 0 "> "]
      ∧ spawnPids (sessionTrace (fun _ => none) (fun p => (p : Int)) 1 ⟨["a b", "c"], true⟩
            (Sink.handle 0) false "> " 0 0 []) = pidRange 0 2
      ∧ awaitPids (sessionTrace (fun _ => none) (fun p => (p : Int)) 1 ⟨["a b", "c"], true⟩
            (Sink.handle 0) false "> " 0 0 []) = pidRange 0 2
      ∧ procEvents (sessionTrace (fun _ => none) (fun p => (p : Int)) 1 ⟨["a b", "c"], true⟩
            (Sink.handle 0) false "> " 0 0 []) = pairSeq 0 (["a b", "c"].map split)
      ∧ ∀ n, (awaitPids ((pairSeq 0 (["a b", "c"].map split)).take n)).length
              ≤ (spawnPids ((pairSeq 0 (["a b", "c"].map split)).take n)).length
           ∧ (spawnPids ((pairSeq 0 (["a b", "c"].map split)).take n)).length
              ≤ (awaitPids ((pairSeq 0 (["a b", "c"].map split)).take n)).length + 1) :=
  ⟨by decide,
   C5_serial_alternation (fun _ => none) (fun p => (p : Int)) 1 ["a b", "c"] (Sink.handle 0)
     "> " 0 0 (by decide)⟩

/-- C7: tokenizing any well-formed command line — words separated by
arbitrary non-empty runs of whitespace (spaces, tabs, ...), with optional
leading and trailing whitespace — yields exactly the original sequence of
words with quoting delimiters stripped, so re-joining the tokens with single
spaces reproduces the word sequence modulo quoting syntax (round-trip on the
word sequence, not the raw text); and `split` of an all-whitespace or empty
line is the empty vector. -/
theorem C7_tokenize_round_trip :
    (∀ (ps : List (List Char × QWord)) (trail : List Char),
        (∀ p ∈ ps, (∀ c ∈ p.1, isWs c = true) ∧ wfWord p.2) →
        (∀ p ∈ ps.tail, p.1 ≠ []) →
        (∀ c ∈ trail, isWs c = true) →
        split (String.mk (lineData ps ++ trail)) = ps.map fun p => p.2.value)
  ∧ (∀ s : String, (∀ c ∈ s.data, isWs c = true) → split s = []) :=
  ⟨fun ps trail h1 h2 h3 => splitAux_lineData ps trail h1 h2 h3,
   fun s h => splitAux_ws s.data h⟩

/-- C7 witness: the line `a  \t"b c" ` — a bare word, a run of two spaces and
a tab, a quoted word, and a trailing space — tokenizes to `["a", "b c"]`. -/
theorem C7_witness :
    (∀ p ∈ [(([] : List Char), QWord.bareW "a"),
        ([' ', ' ', '\t'], QWord.quotedW "b c")],
      (∀ c ∈ p.1, isWs c = true) ∧ wfWord p.2)
  ∧ (∀ p ∈ [(([] : List Char), QWord.bareW "a"),
        ([' ', ' ', '\t'], QWord.quotedW "b c")].tail, p.1 ≠ [])
  ∧ (∀ c ∈ [' '], isWs c = true)
  ∧ split (String.mk (lineData [(([] : List Char), QWord.bareW "a"),
        ([' ', ' ', '\t'], QWord.quotedW "b c")] ++ [' ']))
      = [(([] : List Char), QWord.bareW "a"),
          ([' ', ' ', '\t'], QWord.quotedW "b c")].map (fun p => p.2.value)
  ∧ (∀ c ∈ ("  " : String).data, isWs c = true)
  ∧ split "  " = [] :=
  ⟨by decide, by decide, by decide,
   C7_tokenize_round_trip.1
     [(([] : List Char), QWord.bareW "a"), ([' ', ' ', '\t'], QWord.quotedW "b c")] [' ']
     (by decide) (by decide) (by decide),
   by decide, C7_tokenize_round_trip.2 "  " (by decide)⟩

/-- C10: for a session whose output sink is not the process's standard
output, every write of the session trace satisfies: drain-phase `Exit code`
lines (those of `waitForParalellCommands`) go to standard output; every write
of a nested session (depth different from the current session's) goes to
standard output; and the current session's own prompt, `Running` lines and
serial-mode `Exit code` lines (the non-drain writes at the session's own
depth) go to the given sink. -/
theorem C10_sink_frame (fs : FS) (status : Nat → Int) (fuel : Nat) (inp : Input) (os : Sink)
    (pm : Bool) (prompt : String) (d p0 : Nat) (pids : List Nat)
    (_hos : os ≠ Sink.stdout) :
    ∀ (s : Sink) (dd : Nat) (k : OutKind),
      Ev.out s dd k ∈ sessionTrace fs status fuel inp os pm prompt d p0 pids →
        (isDrainOut k = true → s = Sink.stdout)
        ∧ (dd ≠ d → s = Sink.stdout)
        ∧ (dd = d → isDrainOut k = false → s = os) := by
  intro s dd k hm
  have h := processCmds_sinks fs status fuel inp os pm prompt d p0 pids s dd k hm
  exact h.2

/-- C10 witness. -/
theorem C10_witness :
    (Sink.handle 1 ≠ Sink.stdout)
  ∧ ((isDrainOut (OutKind.exitCode 0 true) = true → Sink.stdout = Sink.stdout)
     ∧ ((0 : Nat) ≠ 0 → Sink.stdout = Sink.stdout)
     ∧ ((0 : Nat) = 0 → isDrainOut (OutKind.exitCode 0 true) = false
          → Sink.stdout = Sink.handle 1)) :=
  ⟨by decide,
   C10_sink_frame (fun _ => none) (fun _ => 0) 1 ⟨["ls"], true⟩ (Sink.handle 1) true "" 0 0 []
     (by decide) Sink.stdout 0 (OutKind.exitCode 0 true) (by decide)⟩

end Shell
